import Mathlib

/-!
Shallow embedding of the KYC agent system (src/kyc/system.py and
src/kyc/utils.py) and verification of its specified properties.

Modelling conventions:
* JSON numeric values are modelled as integers (`Int`).
* JSON objects whose fields matter to the modelled operations are structures
  with `Option`-valued fields for keys that may be absent.
* The Python dict `client_data_store` is modelled as an insertion-ordered
  association list (`Store`); `Store.set` mutates in place or appends at the
  end, `Store.erase` removes the entry, mirroring dict semantics.
* Calls to the LLM layer (`invoke_agent_function`) are modelled by an oracle
  (`AgentOracle`): `.error e` is a raised exception from the invocation,
  `.ok none` is a response whose `json.loads` fails, `.ok (some v)` is a
  parsed response.
* `datetime.now().isoformat()` is passed in as an explicit timestamp string.
* Python `str.lower`/`str.strip`/`str.split` are modelled by the
  corresponding ASCII `String` operations.
-/

/-- An asset or liability entry: a JSON object with an optional numeric
`value` key (other keys are carried along but never inspected). -/
structure Entry where
  description : String := ""
  category : String := ""
  value : Option Int := none
deriving DecidableEq, Repr

/-- An element of a record's `documents_processed` list.
`update_client_data` appends objects with `data_type`/`timestamp`/`data_summary`
keys; `update_client_data_from_overview` appends `timestamp`/`summary` objects. -/
structure ProcEvent where
  data_type : Option String := none
  timestamp : Option String := none
  data_summary : Option String := none
  summary : Option String := none
deriving DecidableEq, Repr

/-- An element of a record's `merge_history` list, appended by
`_merge_client_records`. -/
structure MergeEvent where
  merged_from_id : String
  timestamp : String
  assets_count : Nat
  liabilities_count : Nat
deriving DecidableEq, Repr

/-- Parsed client-identification output (and the `client_info` object stored
on a client record). -/
structure ClientInfoData where
  client_id : Option String := none
  client_name : Option String := none
  account_number : Option String := none
  tax_id : Option String := none
  normalized_name : Option String := none
  confidence : Option String := none
deriving DecidableEq, Repr

/-- A value of `client_data_store[key]`. -/
structure ClientRecord where
  assets : List Entry := []
  liabilities : List Entry := []
  documents_processed : List ProcEvent := []
  client_info : Option ClientInfoData := none
  merge_history : List MergeEvent := []
deriving DecidableEq, Repr

/-- The record created on first sight of a client key (`system.py` lines
396-401 and 617-623): empty asset/liability/history lists. -/
def emptyClientRecord : ClientRecord := {}

/-- The in-memory `client_data_store`: an insertion-ordered association list
from client key to record. -/
abbrev Store := List (String × ClientRecord)

/-- Dict lookup: value of the first (unique) entry with the given key. -/
def Store.find? : Store → String → Option ClientRecord
  | [], _ => none
  | (k, r) :: t, c => if k = c then some r else Store.find? t c

/-- Dict assignment `store[c] = r`: replace the entry in place, or append a
new entry at the end. -/
def Store.set : Store → String → ClientRecord → Store
  | [], c, r => [(c, r)]
  | (k, r0) :: t, c, r => if k = c then (c, r) :: t else (k, r0) :: Store.set t c r

/-- Dict deletion `del store[c]`: drop the entry with the given key. -/
def Store.erase : Store → String → Store
  | [], _ => []
  | (k, r) :: t, c => if k = c then t else (k, r) :: Store.erase t c

/-- The keys of the store in insertion order. -/
def Store.keys (s : Store) : List String := s.map Prod.fst

@[simp] theorem Store.find?_nil (c : String) : Store.find? [] c = none := rfl

@[simp] theorem Store.find?_cons (k : String) (r : ClientRecord) (t : Store) (c : String) :
    Store.find? ((k, r) :: t) c = if k = c then some r else Store.find? t c := rfl

theorem Store.find?_set_self (s : Store) (c : String) (r : ClientRecord) :
    (s.set c r).find? c = some r := by
  induction s with
  | nil => simp [Store.set]
  | cons p t ih =>
    obtain ⟨k, r0⟩ := p
    by_cases h : k = c <;> simp [Store.set, h, ih]

theorem Store.find?_set_ne (s : Store) (c k : String) (r : ClientRecord) (h : k ≠ c) :
    (s.set c r).find? k = s.find? k := by
  induction s with
  | nil => simp [Store.set, Store.find?, Ne.symm h]
  | cons p t ih =>
    obtain ⟨k0, r0⟩ := p
    by_cases h0 : k0 = c
    · subst h0
      simp [Store.set, Ne.symm h]
    · simp only [Store.set, if_neg h0, Store.find?_cons]
      by_cases h1 : k0 = k <;> simp [h1, ih]

theorem Store.find?_erase_ne (s : Store) (c k : String) (h : k ≠ c) :
    (s.erase c).find? k = s.find? k := by
  induction s with
  | nil => simp [Store.erase]
  | cons p t ih =>
    obtain ⟨k0, r0⟩ := p
    by_cases h0 : k0 = c
    · subst h0
      simp [Store.erase, Ne.symm h]
    · simp only [Store.erase, if_neg h0, Store.find?_cons]
      by_cases h1 : k0 = k <;> simp [h1, ih]

theorem Store.keys_set (s : Store) (c : String) (r : ClientRecord) :
    (s.set c r).keys = if c ∈ s.keys then s.keys else s.keys ++ [c] := by
  induction s with
  | nil => simp [Store.set, Store.keys]
  | cons p t ih =>
    obtain ⟨k0, r0⟩ := p
    by_cases h0 : k0 = c
    · subst h0
      simp [Store.set, Store.keys]
    · simp only [Store.set, if_neg h0, Store.keys, List.map_cons] at *
      by_cases hc : c ∈ t.map Prod.fst <;>
        simp [hc, ih, Store.keys, Ne.symm h0]

theorem Store.find?_eq_none_of_not_mem_keys (s : Store) (c : String)
    (h : c ∉ s.keys) : s.find? c = none := by
  induction s with
  | nil => rfl
  | cons p t ih =>
    obtain ⟨k0, r0⟩ := p
    simp only [Store.keys, List.map_cons, List.mem_cons] at h
    push_neg at h
    rw [Store.find?_cons, if_neg (Ne.symm h.1)]
    exact ih h.2

theorem Store.find?_erase_self (s : Store) (c : String) (hnd : s.keys.Nodup) :
    (s.erase c).find? c = none := by
  induction s with
  | nil => simp [Store.erase]
  | cons p t ih =>
    obtain ⟨k0, r0⟩ := p
    simp only [Store.keys, List.map_cons, List.nodup_cons] at hnd
    by_cases h0 : k0 = c
    · subst h0
      rw [Store.erase, if_pos rfl]
      exact Store.find?_eq_none_of_not_mem_keys t k0 hnd.1
    · rw [Store.erase, if_neg h0, Store.find?_cons, if_neg h0]
      exact ih hnd.2

theorem Store.keys_erase_sublist (s : Store) (c : String) :
    (s.erase c).keys.Sublist s.keys := by
  induction s with
  | nil => simp [Store.erase]
  | cons p t ih =>
    obtain ⟨k0, r0⟩ := p
    by_cases h0 : k0 = c
    · subst h0
      simp only [Store.erase, if_pos rfl, Store.keys, List.map_cons]
      exact List.sublist_cons_self _ _
    · simp only [Store.erase, if_neg h0, Store.keys, List.map_cons]
      exact (ih).cons₂ _

theorem Store.nodup_keys_erase (s : Store) (c : String) (hnd : s.keys.Nodup) :
    (s.erase c).keys.Nodup :=
  (Store.keys_erase_sublist s c).nodup hnd

theorem Store.nodup_keys_set (s : Store) (c : String) (r : ClientRecord)
    (hnd : s.keys.Nodup) : (s.set c r).keys.Nodup := by
  rw [Store.keys_set]
  by_cases hc : c ∈ s.keys
  · simpa [hc]
  · simpa [hc, List.nodup_append] using hnd

/-- Python `s.lower()` (ASCII model). -/
def strLower (s : String) : String :=
  ⟨s.data.map Char.toLower⟩

/-- Python `s.strip()` on a character list: drop leading and trailing
whitespace. -/
def stripChars (l : List Char) : List Char :=
  ((l.dropWhile Char.isWhitespace).reverse.dropWhile Char.isWhitespace).reverse

/-- Python `s.strip()`. -/
def strStrip (s : String) : String :=
  ⟨stripChars s.data⟩

/-- Python `s.split()` on a character list: the maximal runs of
non-whitespace characters. `acc` holds the current word, reversed. -/
def splitWsChars : List Char → List Char → List (List Char)
  | [], acc => if acc.isEmpty then [] else [acc.reverse]
  | c :: t, acc =>
    if c.isWhitespace then
      if acc.isEmpty then splitWsChars t [] else acc.reverse :: splitWsChars t []
    else splitWsChars t (c :: acc)

/-- Python `" ".join(words)` on character lists. -/
def joinWordsChars : List (List Char) → List Char
  | [] => []
  | [w] => w
  | w :: ws => w ++ ' ' :: joinWordsChars ws

/-- Python `" ".join(name.lower().split())`: lowercase the name and collapse
whitespace runs (the else-branch of `normalize_client_name`, and the spec's
"lowercased, whitespace-collapsed" normalization). -/
def collapseWhitespaceLower (name : String) : String :=
  ⟨joinWordsChars (splitWsChars (strLower name).data [])⟩

/-- Embeds `normalize_client_name` from src/kyc/utils.py lines 19-26. -/
def normalize_client_name (name : String) : String :=
  if name = "" ∨ name = "UNKNOWN" then "unknown"
  else collapseWhitespaceLower name

/-- Python truthiness of an optional JSON list: `None` and `[]` are falsy. -/
def truthyList (o : Option (List Entry)) : Bool :=
  match o with
  | some (_ :: _) => true
  | _ => false

/-- The `data` dict passed to `update_client_data`: optional `assets`,
`liabilities`, `details` keys, each a JSON list when present. -/
structure UpdatePayload where
  assets : Option (List Entry) := none
  liabilities : Option (List Entry) := none
  details : Option (List Entry) := none
deriving DecidableEq, Repr

/-- Item selection of `update_client_data` (lines 405-408 / 412-414): take the
primary key's list; if it is falsy (absent or empty) and a `details` key
exists, fall back to `details`. -/
def selectItems (primary details : Option (List Entry)) : Option (List Entry) :=
  if truthyList primary then primary
  else
    match details with
    | some d => some d
    | none => primary

/-- Liability sign normalization (lines 417-419 and 636-638): if the entry has
a `value` key, replace it by its absolute value. -/
def normalizeLiabilityEntry (e : Entry) : Entry :=
  match e.value with
  | some v => { e with value := some |v| }
  | none => e

/-- Python `len(data.get(k, [])) or len(data.get('details', []))` (line 424). -/
def pyOrLen (a b : Option (List Entry)) : Nat :=
  let n := (a.getD []).length
  if n = 0 then (b.getD []).length else n

/-- Embeds `update_client_data` (lines 389-431). The guard
`if items and isinstance(items, list)` reduces to extending by the selected
list (extending by the empty list is a no-op, and list-typing holds by
construction in this model). The processed-documents event is appended
regardless of data type. -/
def update_client_data (store : Store) (client_id data_type : String)
    (data : UpdatePayload) (ts : String) : Store :=
  if client_id = "UNKNOWN" then store
  else
    let r0 := (store.find? client_id).getD emptyClientRecord
    let r1 :=
      if data_type = "asset" then
        { r0 with assets := r0.assets ++ (selectItems data.assets data.details).getD [] }
      else if data_type = "liability" then
        { r0 with liabilities := r0.liabilities ++
            ((selectItems data.liabilities data.details).getD []).map normalizeLiabilityEntry }
      else r0
    let summary :=
      if data_type = "asset" then toString (pyOrLen data.assets data.details) ++ " items"
      else toString (pyOrLen data.liabilities data.details) ++ " items"
    let r2 := { r1 with documents_processed := r1.documents_processed ++
        [{ data_type := some data_type, timestamp := some ts, data_summary := some summary }] }
    store.set client_id r2

/-- One `assets`/`liabilities`/`income` object of a per-client overview. -/
structure CategoryData where
  total : Option Int := none
  details : Option (List Entry) := none
deriving DecidableEq, Repr

/-- The per-client value of a financial-overview payload. -/
structure OverviewClientData where
  assets : Option CategoryData := none
  liabilities : Option CategoryData := none
  income : Option CategoryData := none
deriving DecidableEq, Repr

/-- A parsed financial-overview payload: a JSON object keyed by client
display name. -/
abbrev Overview := List (String × OverviewClientData)

/-- Python `data.get(cat, {}).get("details", [])` (lines 626-627 / 632-633). -/
def categoryDetails (c : Option CategoryData) : List Entry :=
  ((c.getD {}).details).getD []

/-- The asset details ingested for one overview client. -/
def overviewAssetDetails (d : OverviewClientData) : List Entry :=
  categoryDetails d.assets

/-- The liability details ingested for one overview client (before sign
normalization). -/
def overviewLiabilityDetails (d : OverviewClientData) : List Entry :=
  categoryDetails d.liabilities

/-- The body of the per-client loop of `update_client_data_from_overview`
(lines 616-653): create the record if absent, extend assets, extend
sign-normalized liabilities, and append a processed-documents event. -/
def overviewStep (ts : String) (store : Store) (p : String × OverviewClientData) : Store :=
  let r0 := (store.find? p.1).getD emptyClientRecord
  let r1 := { r0 with
    assets := r0.assets ++ overviewAssetDetails p.2,
    liabilities := r0.liabilities ++
      (overviewLiabilityDetails p.2).map normalizeLiabilityEntry,
    documents_processed := r0.documents_processed ++
      [{ timestamp := some ts, summary := some "Updated data from overview document" }] }
  store.set p.1 r1

/-- Embeds `update_client_data_from_overview` (lines 611-653). -/
def update_client_data_from_overview (store : Store) (overview_data : Overview)
    (ts : String) : Store :=
  overview_data.foldl (overviewStep ts) store

/-- Python `sum(x.get("value", 0) for x in l)`. -/
def sumValues (l : List Entry) : Int :=
  (l.map (fun e => e.value.getD 0)).sum

/-- A (possibly partial) net-worth JSON object. -/
structure NetWorthResult where
  client_id : Option String := none
  error : Option String := none
  total_assets : Option Int := none
  total_liabilities : Option Int := none
  net_worth : Option Int := none
deriving DecidableEq, Repr

/-- The explicit not-found result of `calculate_net_worth` (lines 435-442). -/
def clientNotFoundResult (cid : String) : NetWorthResult :=
  { client_id := some cid, error := some "Client not found",
    total_assets := some 0, total_liabilities := some 0, net_worth := some 0 }

/-- The deterministic local fallback of `calculate_net_worth` (lines 467-475),
used when the delegated agent response is unparsable. -/
def netWorthFallback (cid : String) (r : ClientRecord) : NetWorthResult :=
  { client_id := some cid, error := some "Could not calculate net worth",
    total_assets := some (sumValues r.assets),
    total_liabilities := some (sumValues r.liabilities),
    net_worth := some (sumValues r.assets - sumValues r.liabilities) }

/-- An exception value: message and `type(e).__name__`. -/
structure PyError where
  msg : String := ""
  ename : String := ""
deriving DecidableEq, Repr

/-- Parsed language-detection output. -/
structure LanguageInfo where
  primary_language : Option String := none
  language_code : Option String := none
  confidence : Option String := none
deriving DecidableEq, Repr

/-- The fail-soft default of `detect_document_language` (lines 247-252). -/
def defaultLanguageInfo : LanguageInfo :=
  { primary_language := some "English", language_code := some "en",
    confidence := some "low" }

/-- The oracle standing for `invoke_agent_function`: one field per agent task
invoked by the system. `.error e` models a raised exception, `.ok none` a
response on which `json.loads` fails, `.ok (some v)` a parsed response. -/
structure AgentOracle where
  detectLanguage : String → Except PyError (Option LanguageInfo)
  translate : String → String → Except PyError String
  extractClientEn : String → Except PyError (Option ClientInfoData)
  extractClientMulti : String → String → Except PyError (Option ClientInfoData)
  classifyEn : String → Except PyError String
  classifyMulti : String → String → Except PyError String
  extractOverview : String → Except PyError (Option Overview)
  calcNetWorth : List Entry → List Entry → ClientInfoData →
    Except PyError (Option NetWorthResult)

/-- Python slicing `s[:n]` (by code point). -/
def strTake (s : String) (n : Nat) : String := ⟨s.data.take n⟩

/-- Embeds `detect_document_language` (lines 232-252): the agent is invoked on
the first 1000 characters; a JSON-decode failure yields the default. -/
def detect_document_language (o : AgentOracle) (document_content : String) :
    Except PyError LanguageInfo :=
  match o.detectLanguage (strTake document_content 1000) with
  | .error e => .error e
  | .ok none => .ok defaultLanguageInfo
  | .ok (some li) => .ok li

/-- The `client_info` argument built by `calculate_net_worth` (lines 447-449). -/
def netWorthClientInfo (cid : String) (r : ClientRecord) : ClientInfoData :=
  match r.client_info with
  | some ci => ci
  | none => { client_id := some cid }

/-- Embeds `calculate_net_worth` (lines 433-475). -/
def calculate_net_worth (o : AgentOracle) (store : Store) (cid : String) :
    Except PyError NetWorthResult :=
  match store.find? cid with
  | none => .ok (clientNotFoundResult cid)
  | some r =>
    match o.calcNetWorth r.assets r.liabilities (netWorthClientInfo cid r) with
    | .error e => .error e
    | .ok (some parsed) => .ok parsed
    | .ok none => .ok (netWorthFallback cid r)

/-- The summary object returned by `get_client_summary`; the error case
carries only `client_id` and `error`. -/
structure ClientSummary where
  client_id : String
  error : Option String := none
  client_info : Option ClientInfoData := none
  asset_count : Option Nat := none
  liability_count : Option Nat := none
  document_count : Option Nat := none
  total_assets : Option Int := none
  total_liabilities : Option Int := none
  net_worth : Option Int := none
  last_updated : Option String := none
deriving DecidableEq, Repr

/-- Python `max([d.get("timestamp", "2000-01-01") for d in l], default="Never")`
(line 570). -/
def maxTimestamp (l : List ProcEvent) : String :=
  match l.map (fun d => d.timestamp.getD "2000-01-01") with
  | [] => "Never"
  | x :: xs => xs.foldl (fun a b => if a < b then b else a) x

/-- Embeds `get_client_summary` (lines 544-571). -/
def get_client_summary (store : Store) (cid : String) : ClientSummary :=
  match store.find? cid with
  | none => { client_id := cid, error := some "Client not found" }
  | some r =>
    { client_id := cid,
      client_info := some ((r.client_info).getD { client_name := some "UNKNOWN" }),
      asset_count := some r.assets.length,
      liability_count := some r.liabilities.length,
      document_count := some r.documents_processed.length,
      total_assets := some (sumValues r.assets),
      total_liabilities := some (sumValues r.liabilities),
      net_worth := some (sumValues r.assets - sumValues r.liabilities),
      last_updated := some (maxTimestamp r.documents_processed) }

/-- Python
`record.get("client_info", {}).get("client_name", "").lower().strip()`
(lines 488-489): the name by which `reconcile_client_records` groups records. -/
def reconcileGroupName (r : ClientRecord) : String :=
  strStrip (strLower ((((r.client_info).getD {}).client_name).getD ""))

/-- The guard of line 491: the group name is non-empty and not "unknown". -/
def validGroupName (n : String) : Bool :=
  n ≠ "" && n ≠ "unknown"

/-- Append a client id to its name's group, creating the group at the end if
absent (dict-of-lists semantics of lines 492-494). -/
def addToGroups (groups : List (String × List String)) (name cid : String) :
    List (String × List String) :=
  match groups with
  | [] => [(name, [cid])]
  | (n, ids) :: t =>
    if n = name then (n, ids ++ [cid]) :: t else (n, ids) :: addToGroups t name cid

/-- One step of the grouping loop (lines 487-494): a record with a valid
group name contributes its key to that name's group. -/
def groupStepFn (gs : List (String × List String)) (p : String × ClientRecord) :
    List (String × List String) :=
  if validGroupName (reconcileGroupName p.2) then
    addToGroups gs (reconcileGroupName p.2) p.1
  else gs

/-- The grouping loop of `reconcile_client_records` (lines 485-494). -/
def buildClientGroups (store : Store) : List (String × List String) :=
  store.foldl groupStepFn []

/-- Embeds `_merge_client_records` (lines 511-542): if both records exist,
concatenate the secondary's assets, liabilities and history onto the primary,
append a merge-history event, and delete the secondary. -/
def mergeClientRecords (store : Store) (primary_id secondary_id ts : String) : Store :=
  match store.find? primary_id, store.find? secondary_id with
  | some p, some s2 =>
    let p1 := { p with
      assets := p.assets ++ s2.assets,
      liabilities := p.liabilities ++ s2.liabilities,
      documents_processed := p.documents_processed ++ s2.documents_processed,
      merge_history := p.merge_history ++
        [{ merged_from_id := secondary_id, timestamp := ts,
           assets_count := s2.assets.length,
           liabilities_count := s2.liabilities.length }] }
    (store.set primary_id p1).erase secondary_id
  | _, _ => store

/-- The inner merge loop of `reconcile_client_records` (lines 504-506): merge
every non-primary group member into the primary. -/
def mergeGroup (ts : String) (st : Store) (primary : String) (others : List String) : Store :=
  others.foldl (fun s o => mergeClientRecords s primary o ts) st

/-- One step of the merge loop (lines 498-506): a group with more than one
member has every non-primary member merged into the first, counting one merge
per absorbed member; smaller groups are skipped. -/
def reconcileStep (ts : String) (acc : Store × Nat) (g : String × List String) :
    Store × Nat :=
  match g.2 with
  | primary :: o :: rest =>
    (mergeGroup ts acc.1 primary (o :: rest), acc.2 + (o :: rest).length)
  | _ => acc

/-- Embeds `reconcile_client_records` (lines 477-509), returning the updated
store together with the merged-record count. -/
def reconcile_client_records (store : Store) (ts : String) : Store × Nat :=
  (buildClientGroups store).foldl (reconcileStep ts) (store, 0)

/-- The default client info returned by `extract_client_info` on a JSON-decode
failure (lines 296-301). -/
def unknownClientInfo : ClientInfoData :=
  { client_id := some "UNKNOWN", client_name := some "UNKNOWN",
    confidence := some "low" }

/-- Substring test on character lists (Python `pat in s` for strings). -/
def listHasSubstr (pat : List Char) : List Char → Bool
  | [] => pat.isEmpty
  | c :: t => pat.isPrefixOf (c :: t) || listHasSubstr pat t

/-- Python `pat in s` for strings: `pat` occurs as a contiguous substring. -/
def strHasSubstr (s pat : String) : Bool :=
  listHasSubstr pat.data s.data

/-- The post-processing of `extract_client_info` (lines 284-292): when a
truthy `client_name` is present, attach `normalized_name`; when additionally
the client id is `"UNKNOWN"` or contains `"PROP-"`, synthesize the id
`NAME-<normalized_name>`. -/
def postProcessClientInfo (ci : ClientInfoData) : ClientInfoData :=
  match ci.client_name with
  | some nm =>
    if nm ≠ "" then
      let n := normalize_client_name nm
      let ci1 := { ci with normalized_name := some n }
      if ci.client_id = some "UNKNOWN" || strHasSubstr ((ci.client_id).getD "") "PROP-" then
        { ci1 with client_id := some ("NAME-" ++ n) }
      else ci1
    else ci
  | none => ci

/-- Embeds `extract_client_info` (lines 265-301). -/
def extract_client_info (o : AgentOracle) (document_content language_code : String) :
    Except PyError ClientInfoData :=
  let resp :=
    if language_code = "en" then o.extractClientEn document_content
    else o.extractClientMulti document_content language_code
  match resp with
  | .error e => .error e
  | .ok none => .ok unknownClientInfo
  | .ok (some ci) => .ok (postProcessClientInfo ci)

/-- Embeds `classify_document` (lines 303-320): language-branching invocation,
result stripped. -/
def classify_document (o : AgentOracle) (document_content language_code : String) :
    Except PyError String :=
  let resp :=
    if language_code = "en" then o.classifyEn document_content
    else o.classifyMulti document_content language_code
  match resp with
  | .error e => .error e
  | .ok s => .ok (strStrip s)

/-- Lines 162-168 of `analyze_document`: the document text used downstream is
the original for English, else the translation result. -/
def documentForProcessing (o : AgentOracle) (document_content language_code : String) :
    Except PyError String :=
  if language_code = "en" then .ok document_content
  else o.translate document_content language_code

/-- The per-client net-worth loop of `analyze_document` (lines 197-199). -/
def netWorthLoop (o : AgentOracle) (store : Store) :
    List String → Except PyError (List (String × NetWorthResult))
  | [] => .ok []
  | c :: t =>
    match calculate_net_worth o store c with
    | .error e => .error e
    | .ok nw =>
      match netWorthLoop o store t with
      | .error e => .error e
      | .ok rest => .ok ((c, nw) :: rest)

/-- Python `sum(nw.get("net_worth", 0) for nw in client_net_worths.values())`
(line 204). -/
def combinedNetWorth (l : List (String × NetWorthResult)) : Int :=
  (l.map (fun p => p.2.net_worth.getD 0)).sum

/-- The `net_worth` component of a successful analysis result (lines 203-206). -/
structure NetWorthAggregate where
  combined_net_worth : Int
  individual_net_worth : List (String × NetWorthResult)
deriving DecidableEq, Repr

/-- The object returned by `analyze_document`: either the success shape
(lines 210-217) or the failure shape (lines 225-230). -/
structure AnalyzeResult where
  document_name : String
  document_type : Option String := none
  language : Option LanguageInfo := none
  client_information : Option ClientInfoData := none
  financial_data : Option Overview := none
  net_worth : Option NetWorthAggregate := none
  error : Option String := none
  error_type : Option String := none
  status : Option String := none
deriving DecidableEq, Repr

/-- The failure result built by the exception handler of `analyze_document`
(lines 225-230). -/
def failedResult (name : String) (e : PyError) : AnalyzeResult :=
  { document_name := name, error := some e.msg, error_type := some e.ename,
    status := some "failed" }

/-- Embeds `analyze_document` (lines 140-230): the full pipeline, returning
the result object and the updated client data store. Every stage error is
converted by the surrounding handler into `failedResult`. -/
def analyze_document (o : AgentOracle) (store : Store)
    (document_content document_name ts : String) : AnalyzeResult × Store :=
  match detect_document_language o document_content with
  | .error e => (failedResult document_name e, store)
  | .ok language_info =>
    match documentForProcessing o document_content ((language_info.language_code).getD "en") with
    | .error e => (failedResult document_name e, store)
    | .ok document_for_processing =>
      match extract_client_info o document_content ((language_info.language_code).getD "en") with
      | .error e => (failedResult document_name e, store)
      | .ok client_info =>
        match classify_document o document_content ((language_info.language_code).getD "en") with
        | .error e => (failedResult document_name e, store)
        | .ok document_type =>
          match o.extractOverview document_for_processing with
          | .error e => (failedResult document_name e, store)
          | .ok ovOpt =>
            match netWorthLoop o
                (update_client_data_from_overview store (ovOpt.getD []) ts)
                ((ovOpt.getD []).map Prod.fst) with
            | .error e =>
              (failedResult document_name e,
               update_client_data_from_overview store (ovOpt.getD []) ts)
            | .ok nws =>
              ({ document_name := document_name,
                 document_type := some document_type,
                 language := some language_info,
                 client_information := some client_info,
                 financial_data := some (ovOpt.getD []),
                 net_worth := some { combined_net_worth := combinedNetWorth nws,
                                     individual_net_worth := nws } },
               update_client_data_from_overview store (ovOpt.getD []) ts)

/-- A concrete oracle whose structured responses are all unparsable and whose
text responses are empty, used to instantiate theorems at concrete inputs. -/
def trivialOracle : AgentOracle where
  detectLanguage _ := .ok none
  translate _ _ := .ok ""
  extractClientEn _ := .ok none
  extractClientMulti _ _ := .ok none
  classifyEn _ := .ok ""
  classifyMulti _ _ := .ok ""
  extractOverview _ := .ok none
  calcNetWorth _ _ _ := .ok none

/-- C10: calling `update_client_data` with client id "UNKNOWN" is a complete
no-op on the client data store, for every data type and payload. -/
theorem claim_C10_unknown_client_noop (store : Store) (data_type : String)
    (data : UpdatePayload) (ts : String) :
    update_client_data store "UNKNOWN" data_type data ts = store := by
  unfold update_client_data
  simp

/-- C5: for a client key absent from the store, `calculate_net_worth` returns
the explicit not-found result with the error field "Client not found", the
client id echoed back, and zero totals and net worth. -/
theorem claim_C5_not_found_result (o : AgentOracle) (store : Store) (cid : String)
    (habsent : store.find? cid = none) :
    calculate_net_worth o store cid = .ok (clientNotFoundResult cid) ∧
    (clientNotFoundResult cid).client_id = some cid ∧
    (clientNotFoundResult cid).error = some "Client not found" ∧
    (clientNotFoundResult cid).total_assets = some 0 ∧
    (clientNotFoundResult cid).total_liabilities = some 0 ∧
    (clientNotFoundResult cid).net_worth = some 0 := by
  refine ⟨?_, rfl, rfl, rfl, rfl, rfl⟩
  unfold calculate_net_worth
  rw [habsent]

/-- Closed instance of C5 at a concrete never-seen key. -/
theorem claim_C5_not_found_result_witness :
    calculate_net_worth trivialOracle [] "CLIENT-404" = .ok (clientNotFoundResult "CLIENT-404") ∧
    (clientNotFoundResult "CLIENT-404").client_id = some "CLIENT-404" ∧
    (clientNotFoundResult "CLIENT-404").error = some "Client not found" ∧
    (clientNotFoundResult "CLIENT-404").total_assets = some 0 ∧
    (clientNotFoundResult "CLIENT-404").total_liabilities = some 0 ∧
    (clientNotFoundResult "CLIENT-404").net_worth = some 0 :=
  claim_C5_not_found_result trivialOracle [] "CLIENT-404" rfl

/-- C1: for a client key present in the store, whenever the delegated
net-worth response is unparsable the locally computed fallback is returned,
and it satisfies net worth = total assets − total liabilities exactly, with
the totals being the sums of the accumulated entry values; the same equation
holds for the summary returned by `get_client_summary`. -/
theorem claim_C1_net_worth_equation (o : AgentOracle) (store : Store)
    (cid : String) (r : ClientRecord)
    (hfind : store.find? cid = some r)
    (hunparsable : o.calcNetWorth r.assets r.liabilities (netWorthClientInfo cid r) = .ok none) :
    calculate_net_worth o store cid = .ok (netWorthFallback cid r) ∧
    (netWorthFallback cid r).total_assets = some (sumValues r.assets) ∧
    (netWorthFallback cid r).total_liabilities = some (sumValues r.liabilities) ∧
    (netWorthFallback cid r).net_worth =
      some (sumValues r.assets - sumValues r.liabilities) ∧
    (get_client_summary store cid).total_assets = some (sumValues r.assets) ∧
    (get_client_summary store cid).total_liabilities = some (sumValues r.liabilities) ∧
    (get_client_summary store cid).net_worth =
      some (sumValues r.assets - sumValues r.liabilities) := by
  have hsum : get_client_summary store cid =
      { client_id := cid,
        client_info := some ((r.client_info).getD { client_name := some "UNKNOWN" }),
        asset_count := some r.assets.length,
        liability_count := some r.liabilities.length,
        document_count := some r.documents_processed.length,
        total_assets := some (sumValues r.assets),
        total_liabilities := some (sumValues r.liabilities),
        net_worth := some (sumValues r.assets - sumValues r.liabilities),
        last_updated := some (maxTimestamp r.documents_processed) } := by
    unfold get_client_summary
    rw [hfind]
  refine ⟨?_, rfl, rfl, rfl, ?_, ?_, ?_⟩
  · unfold calculate_net_worth
    simp only [hfind, hunparsable]
  · rw [hsum]
  · rw [hsum]
  · rw [hsum]

/-- A concrete client record used to instantiate C1. -/
def c1Record : ClientRecord :=
  { assets := [{ description := "house", value := some 100 }],
    liabilities := [{ description := "loan", value := some 30 }, { description := "fee" }] }

/-- Closed instance of C1 at a concrete one-client store. -/
theorem claim_C1_net_worth_equation_witness :
    calculate_net_worth trivialOracle [("K1", c1Record)] "K1" =
      .ok (netWorthFallback "K1" c1Record) ∧
    (netWorthFallback "K1" c1Record).total_assets = some (sumValues c1Record.assets) ∧
    (netWorthFallback "K1" c1Record).total_liabilities = some (sumValues c1Record.liabilities) ∧
    (netWorthFallback "K1" c1Record).net_worth =
      some (sumValues c1Record.assets - sumValues c1Record.liabilities) ∧
    (get_client_summary [("K1", c1Record)] "K1").total_assets = some (sumValues c1Record.assets) ∧
    (get_client_summary [("K1", c1Record)] "K1").total_liabilities =
      some (sumValues c1Record.liabilities) ∧
    (get_client_summary [("K1", c1Record)] "K1").net_worth =
      some (sumValues c1Record.assets - sumValues c1Record.liabilities) :=
  claim_C1_net_worth_equation trivialOracle [("K1", c1Record)] "K1" c1Record (by decide) rfl

theorem normalize_client_name_eq_collapse (nm : String) (h : nm ≠ "") :
    normalize_client_name nm = collapseWhitespaceLower nm := by
  unfold normalize_client_name
  by_cases hu : nm = "UNKNOWN"
  · subst hu
    simp only [or_true, if_true]
    decide
  · simp [h, hu]

theorem List.isPrefixOf_append_self (l r : List Char) : l.isPrefixOf (l ++ r) = true := by
  induction l with
  | nil => simp [List.isPrefixOf]
  | cons c t ih => simp [List.isPrefixOf, ih]

theorem listHasSubstr_of_append (pat rest : List Char) :
    listHasSubstr pat (pat ++ rest) = true := by
  cases pat with
  | nil =>
    cases rest with
    | nil => simp [listHasSubstr, List.isEmpty]
    | cons c t => simp [listHasSubstr, List.isPrefixOf]
  | cons c t =>
    simp only [List.cons_append, listHasSubstr, Bool.or_eq_true]
    left
    exact List.isPrefixOf_append_self (c :: t) rest

theorem strHasSubstr_of_append_left (pre rest : String) :
    strHasSubstr (pre ++ rest) pre = true := by
  unfold strHasSubstr
  have hdata : (pre ++ rest).data = pre.data ++ rest.data := by
    cases pre
    cases rest
    rfl
  rw [hdata]
  exact listHasSubstr_of_append pre.data rest.data

/-- C7: whenever the parsed client-identification result carries a non-empty
client name, `extract_client_info` attaches the normalized name (the name
lowercased with whitespace collapsed), and whenever no strong client id was
found (`"UNKNOWN"` or a `"PROP-"`-prefixed value) the client id is replaced by
the synthesized stable key `NAME-<normalized_name>`. -/
theorem claim_C7_stable_derived_key (o : AgentOracle)
    (document_content language_code : String) (ci : ClientInfoData) (nm : String)
    (hresp : (if language_code = "en" then o.extractClientEn document_content
              else o.extractClientMulti document_content language_code) = .ok (some ci))
    (hname : ci.client_name = some nm) (hne : nm ≠ "") :
    extract_client_info o document_content language_code = .ok (postProcessClientInfo ci) ∧
    (postProcessClientInfo ci).normalized_name = some (collapseWhitespaceLower nm) ∧
    ((ci.client_id = some "UNKNOWN" ∨ ∃ rest, ci.client_id = some ("PROP-" ++ rest)) →
      (postProcessClientInfo ci).client_id =
        some ("NAME-" ++ collapseWhitespaceLower nm)) := by
  have hpost : postProcessClientInfo ci =
      (if ci.client_id = some "UNKNOWN" ||
          strHasSubstr ((ci.client_id).getD "") "PROP-" then
        { ci with normalized_name := some (normalize_client_name nm),
                  client_id := some ("NAME-" ++ normalize_client_name nm) }
      else { ci with normalized_name := some (normalize_client_name nm) }) := by
    unfold postProcessClientInfo
    rw [hname]
    simp only [hne, if_true, ne_eq, not_false_eq_true]
  refine ⟨?_, ?_, ?_⟩
  · unfold extract_client_info
    simp only [hresp]
  · rw [hpost]
    by_cases hcond : (ci.client_id = some "UNKNOWN" ||
        strHasSubstr ((ci.client_id).getD "") "PROP-") = true
    · rw [if_pos hcond]
      simp [normalize_client_name_eq_collapse nm hne]
    · rw [if_neg hcond]
      simp [normalize_client_name_eq_collapse nm hne]
  · intro hweak
    have hcond : (ci.client_id = some "UNKNOWN" ||
        strHasSubstr ((ci.client_id).getD "") "PROP-") = true := by
      rcases hweak with hu | ⟨rest, hp⟩
      · simp [hu]
      · rw [Bool.or_eq_true]
        right
        rw [hp]
        exact strHasSubstr_of_append_left "PROP-" rest
    rw [hpost, if_pos hcond]
    simp [normalize_client_name_eq_collapse nm hne]

/-- A concrete parsed client-identification result used to instantiate C7. -/
def c7ParsedInfo : ClientInfoData :=
  { client_id := some "PROP-0012", client_name := some "  Jane   DOE " }

/-- Closed instance of C7: a placeholder id with a recognizable name receives
the synthesized key. -/
theorem claim_C7_stable_derived_key_witness :
    extract_client_info
        { trivialOracle with extractClientEn := fun _ => .ok (some c7ParsedInfo) }
        "doc" "en" = .ok (postProcessClientInfo c7ParsedInfo) ∧
    (postProcessClientInfo c7ParsedInfo).normalized_name =
      some (collapseWhitespaceLower "  Jane   DOE ") ∧
    ((c7ParsedInfo.client_id = some "UNKNOWN" ∨
        ∃ rest, c7ParsedInfo.client_id = some ("PROP-" ++ rest)) →
      (postProcessClientInfo c7ParsedInfo).client_id =
        some ("NAME-" ++ collapseWhitespaceLower "  Jane   DOE ")) :=
  claim_C7_stable_derived_key
    { trivialOracle with extractClientEn := fun _ => .ok (some c7ParsedInfo) }
    "doc" "en" c7ParsedInfo "  Jane   DOE " rfl rfl (by decide)

/-- The per-entry liability invariant: a stored entry carrying a value has a
non-negative one (entries without a value are unconstrained). -/
def entryValueNonneg (e : Entry) : Prop :=
  0 ≤ e.value.getD 0

instance (e : Entry) : Decidable (entryValueNonneg e) := by
  unfold entryValueNonneg
  infer_instance

/-- The store-wide invariant: every liability entry of every stored record
carries a non-negative value (if any). -/
def LiabNonneg (store : Store) : Prop :=
  ∀ p ∈ store, ∀ e ∈ p.2.liabilities, entryValueNonneg e

instance (store : Store) : Decidable (LiabNonneg store) := by
  unfold LiabNonneg
  infer_instance

theorem Store.mem_set (s : Store) (c : String) (r : ClientRecord)
    (q : String × ClientRecord) : q ∈ s.set c r → q ∈ s ∨ q = (c, r) := by
  induction s with
  | nil =>
    intro h
    simp only [Store.set, List.mem_singleton] at h
    exact Or.inr h
  | cons p t ih =>
    obtain ⟨k0, r0⟩ := p
    intro h
    by_cases h0 : k0 = c
    · subst h0
      simp only [Store.set, eq_self_iff_true, if_true, List.mem_cons] at h
      rcases h with h1 | h1
      · exact Or.inr h1
      · exact Or.inl (List.mem_cons_of_mem _ h1)
    · simp only [Store.set, if_neg h0, List.mem_cons] at h
      rcases h with h1 | h1
      · exact Or.inl (by simp [h1])
      · rcases ih h1 with h2 | h2
        · exact Or.inl (List.mem_cons_of_mem _ h2)
        · exact Or.inr h2

theorem Store.find?_mem (s : Store) (c : String) (r : ClientRecord)
    (h : s.find? c = some r) : (c, r) ∈ s := by
  induction s with
  | nil => simp [Store.find?] at h
  | cons p t ih =>
    obtain ⟨k0, r0⟩ := p
    by_cases h0 : k0 = c
    · subst h0
      rw [Store.find?_cons, if_pos rfl] at h
      injection h with h
      simp [h]
    · rw [Store.find?_cons, if_neg h0] at h
      exact List.mem_cons_of_mem _ (ih h)

theorem normalizeLiabilityEntry_nonneg (e : Entry) :
    entryValueNonneg (normalizeLiabilityEntry e) := by
  unfold normalizeLiabilityEntry entryValueNonneg
  cases hv : e.value with
  | none => simp [hv]
  | some v => simp [abs_nonneg]

theorem liabNonneg_getD_record (store : Store) (hinv : LiabNonneg store) (cid : String) :
    ∀ e ∈ ((store.find? cid).getD emptyClientRecord).liabilities, entryValueNonneg e := by
  cases hf : store.find? cid with
  | none => simp [emptyClientRecord]
  | some r =>
    simpa using hinv (cid, r) (Store.find?_mem store cid r hf)

theorem liabNonneg_update_client_data (store : Store) (hinv : LiabNonneg store)
    (cid dt : String) (data : UpdatePayload) (ts : String) :
    LiabNonneg (update_client_data store cid dt data ts) := by
  unfold update_client_data
  by_cases hu : cid = "UNKNOWN"
  · simpa [hu]
  · simp only [if_neg hu]
    intro q hq e he
    rcases Store.mem_set _ _ _ q hq with hmem | heq
    · exact hinv q hmem e he
    · subst heq
      simp only at he
      by_cases ha : dt = "asset"
      · simp only [ha, if_pos rfl] at he
        exact liabNonneg_getD_record store hinv cid e he
      · by_cases hl : dt = "liability"
        · simp only [if_neg ha, hl, if_pos rfl] at he
          rcases List.mem_append.mp he with h1 | h1
          · exact liabNonneg_getD_record store hinv cid e h1
          · rcases List.mem_map.mp h1 with ⟨e0, _, he0⟩
            rw [← he0]
            exact normalizeLiabilityEntry_nonneg e0
        · simp only [if_neg ha, if_neg hl] at he
          exact liabNonneg_getD_record store hinv cid e he

theorem liabNonneg_overviewStep (store : Store) (hinv : LiabNonneg store)
    (ts : String) (p : String × OverviewClientData) :
    LiabNonneg (overviewStep ts store p) := by
  unfold overviewStep
  intro q hq e he
  rcases Store.mem_set _ _ _ q hq with hmem | heq
  · exact hinv q hmem e he
  · subst heq
    simp only at he
    rcases List.mem_append.mp he with h1 | h1
    · exact liabNonneg_getD_record store hinv p.1 e h1
    · rcases List.mem_map.mp h1 with ⟨e0, _, he0⟩
      rw [← he0]
      exact normalizeLiabilityEntry_nonneg e0

theorem liabNonneg_update_from_overview (store : Store) (hinv : LiabNonneg store)
    (ov : Overview) (ts : String) :
    LiabNonneg (update_client_data_from_overview store ov ts) := by
  unfold update_client_data_from_overview
  induction ov generalizing store with
  | nil => exact hinv
  | cons p t ih =>
    exact ih (overviewStep ts store p) (liabNonneg_overviewStep store hinv ts p)

/-- One ingestion into the ledger: either a financial-overview payload via
`update_client_data_from_overview`, or a typed payload via
`update_client_data`. -/
inductive IngestOp where
  | overview (overview_data : Overview) (ts : String)
  | clientData (client_id data_type : String) (data : UpdatePayload) (ts : String)

/-- Apply one ingestion to the store. -/
def applyIngestOp (store : Store) : IngestOp → Store
  | .overview ov ts => update_client_data_from_overview store ov ts
  | .clientData cid dt d ts => update_client_data store cid dt d ts

/-- Apply a sequence of ingestions to the store. -/
def applyIngestOps (store : Store) (ops : List IngestOp) : Store :=
  ops.foldl applyIngestOp store

/-- C2: liability entries are stored with their value replaced by its absolute
value at ingestion, and consequently, after any sequence of overview or typed
ingestions (in particular starting from the empty store), every liability
entry in the client data store carries a non-negative value — regardless of
the sign of the input values. -/
theorem claim_C2_liabilities_nonneg :
    (∀ (e : Entry) (v : Int), e.value = some v →
      (normalizeLiabilityEntry e).value = some |v| ∧ 0 ≤ |v|) ∧
    (∀ (store : Store) (ops : List IngestOp),
      LiabNonneg store → LiabNonneg (applyIngestOps store ops)) ∧
    (∀ ops : List IngestOp, LiabNonneg (applyIngestOps [] ops)) := by
  have hpres : ∀ (store : Store) (ops : List IngestOp),
      LiabNonneg store → LiabNonneg (applyIngestOps store ops) := by
    intro store ops
    induction ops generalizing store with
    | nil => exact fun h => h
    | cons op t ih =>
      intro h
      refine ih (applyIngestOp store op) ?_
      cases op with
      | overview ov ts => exact liabNonneg_update_from_overview store h ov ts
      | clientData cid dt d ts => exact liabNonneg_update_client_data store h cid dt d ts
  refine ⟨?_, hpres, ?_⟩
  · intro e v hv
    constructor
    · unfold normalizeLiabilityEntry
      rw [hv]
    · exact abs_nonneg v
  · intro ops
    refine hpres [] ops ?_
    intro q hq
    simp at hq

/-- Closed instance of C2: ingesting a negative-valued liability through both
ingestion paths leaves only non-negative stored values. -/
theorem claim_C2_liabilities_nonneg_witness :
    (normalizeLiabilityEntry { value := some (-7) : Entry }).value = some |(-7 : Int)| ∧
    LiabNonneg (applyIngestOps
      [("K0", { liabilities := [{ value := some 4 }] })]
      [IngestOp.overview
          [("A", { liabilities := some { details := some [{ value := some (-5) }] } })] "t1",
        IngestOp.clientData "B" "liability"
          { liabilities := some [{ value := some (-9) }] } "t2"]) :=
  ⟨(claim_C2_liabilities_nonneg.1 { value := some (-7) } (-7) rfl).1,
    claim_C2_liabilities_nonneg.2.1
      [("K0", { liabilities := [{ value := some 4 }] })] _ (by decide)⟩

/-- The record transformation applied to one client by the body of the
overview-ingestion loop (lines 625-651): append the asset details, the
sign-normalized liability details, and one processed-documents event. -/
def applyOverviewClient (r : ClientRecord) (d : OverviewClientData) (ts : String) :
    ClientRecord :=
  { r with
    assets := r.assets ++ overviewAssetDetails d,
    liabilities := r.liabilities ++
      (overviewLiabilityDetails d).map normalizeLiabilityEntry,
    documents_processed := r.documents_processed ++
      [{ timestamp := some ts, summary := some "Updated data from overview document" }] }

theorem overviewStep_eq (ts : String) (store : Store) (p : String × OverviewClientData) :
    overviewStep ts store p =
      store.set p.1 (applyOverviewClient ((store.find? p.1).getD emptyClientRecord) p.2 ts) :=
  rfl

theorem find?_overview_foldl_not_mem (ts : String) (ov : Overview) (s : Store)
    (c : String) (hc : c ∉ ov.map Prod.fst) :
    (ov.foldl (overviewStep ts) s).find? c = s.find? c := by
  induction ov generalizing s with
  | nil => rfl
  | cons p t ih =>
    simp only [List.map_cons, List.mem_cons] at hc
    push_neg at hc
    rw [List.foldl_cons, ih (overviewStep ts s p) hc.2, overviewStep_eq,
      Store.find?_set_ne s p.1 c _ hc.1]

theorem find?_update_from_overview_mem (ov : Overview) (s : Store) (ts : String)
    (c : String) (d : OverviewClientData)
    (hnd : (ov.map Prod.fst).Nodup) (hmem : (c, d) ∈ ov) :
    (update_client_data_from_overview s ov ts).find? c =
      some (applyOverviewClient ((s.find? c).getD emptyClientRecord) d ts) := by
  induction ov generalizing s with
  | nil => simp at hmem
  | cons p t ih =>
    simp only [List.map_cons, List.nodup_cons] at hnd
    rcases List.mem_cons.mp hmem with hhd | htl
    · have hp1 : p.1 = c := by rw [← hhd]
      have hp2 : p.2 = d := by rw [← hhd]
      unfold update_client_data_from_overview
      rw [List.foldl_cons, find?_overview_foldl_not_mem ts t _ c (hp1 ▸ hnd.1),
        overviewStep_eq, hp1, Store.find?_set_self, hp2]
    · have hcne : c ≠ p.1 := by
        intro hceq
        exact hnd.1 (hceq ▸ List.mem_map.mpr ⟨(c, d), htl, rfl⟩)
      unfold update_client_data_from_overview
      rw [List.foldl_cons]
      have := ih (overviewStep ts s p) hnd.2 htl
      unfold update_client_data_from_overview at this
      rw [this, overviewStep_eq, Store.find?_set_ne s p.1 c _ hcne]

theorem sumValues_append (a b : List Entry) :
    sumValues (a ++ b) = sumValues a + sumValues b := by
  unfold sumValues
  rw [List.map_append, List.sum_append]

/-- C4: overview ingestion is monotonic and not idempotent. For a client
present in the payload, one ingestion appends exactly the payload's entries
onto the existing record (never deduplicating or replacing), and ingesting
the same payload twice leaves the client's asset and liability lists
containing each payload entry twice; for a previously unseen client this
doubles the asset and liability totals. -/
theorem claim_C4_monotonic_not_idempotent (store : Store) (ov : Overview)
    (ts1 ts2 : String) (c : String) (d : OverviewClientData)
    (hnd : (ov.map Prod.fst).Nodup) (hmem : (c, d) ∈ ov) :
    (update_client_data_from_overview store ov ts1).find? c =
      some (applyOverviewClient ((store.find? c).getD emptyClientRecord) d ts1) ∧
    (applyOverviewClient ((store.find? c).getD emptyClientRecord) d ts1).assets =
      ((store.find? c).getD emptyClientRecord).assets ++ overviewAssetDetails d ∧
    (applyOverviewClient ((store.find? c).getD emptyClientRecord) d ts1).liabilities =
      ((store.find? c).getD emptyClientRecord).liabilities ++
        (overviewLiabilityDetails d).map normalizeLiabilityEntry ∧
    (update_client_data_from_overview
        (update_client_data_from_overview store ov ts1) ov ts2).find? c =
      some (applyOverviewClient
        (applyOverviewClient ((store.find? c).getD emptyClientRecord) d ts1) d ts2) ∧
    (applyOverviewClient
        (applyOverviewClient ((store.find? c).getD emptyClientRecord) d ts1) d ts2).assets =
      ((store.find? c).getD emptyClientRecord).assets ++
        overviewAssetDetails d ++ overviewAssetDetails d ∧
    (applyOverviewClient
        (applyOverviewClient ((store.find? c).getD emptyClientRecord) d ts1) d ts2).liabilities =
      ((store.find? c).getD emptyClientRecord).liabilities ++
        (overviewLiabilityDetails d).map normalizeLiabilityEntry ++
        (overviewLiabilityDetails d).map normalizeLiabilityEntry ∧
    (store.find? c = none →
      sumValues (applyOverviewClient
          (applyOverviewClient ((store.find? c).getD emptyClientRecord) d ts1) d ts2).assets =
        2 * sumValues (applyOverviewClient
          ((store.find? c).getD emptyClientRecord) d ts1).assets ∧
      sumValues (applyOverviewClient
          (applyOverviewClient ((store.find? c).getD emptyClientRecord) d ts1) d ts2).liabilities =
        2 * sumValues (applyOverviewClient
          ((store.find? c).getD emptyClientRecord) d ts1).liabilities) := by
  have h1 := find?_update_from_overview_mem ov store ts1 c d hnd hmem
  have h2 := find?_update_from_overview_mem ov
    (update_client_data_from_overview store ov ts1) ts2 c d hnd hmem
  rw [h1] at h2
  refine ⟨h1, rfl, rfl, by simpa using h2, rfl, rfl, ?_⟩
  intro habsent
  rw [habsent]
  constructor
  · simp [applyOverviewClient, emptyClientRecord, sumValues_append]
    ring
  · simp [applyOverviewClient, emptyClientRecord, sumValues_append]
    ring

/-- A concrete per-client payload used to instantiate C4. -/
def c4ClientData : OverviewClientData :=
  { assets := some { details := some [{ value := some 10 }, { value := some 5 }] },
    liabilities := some { details := some [{ value := some (-3) }] } }

/-- A concrete one-client overview payload used to instantiate C4. -/
def c4Overview : Overview := [("Alice", c4ClientData)]

/-- Closed instance of C4 at a fresh store and a concrete payload. -/
theorem claim_C4_monotonic_not_idempotent_witness :
    (update_client_data_from_overview [] c4Overview "t1").find? "Alice" =
      some (applyOverviewClient ((Store.find? [] "Alice").getD emptyClientRecord)
        c4ClientData "t1") ∧
    (applyOverviewClient ((Store.find? [] "Alice").getD emptyClientRecord)
        c4ClientData "t1").assets =
      ((Store.find? [] "Alice").getD emptyClientRecord).assets ++
        overviewAssetDetails c4ClientData ∧
    (applyOverviewClient ((Store.find? [] "Alice").getD emptyClientRecord)
        c4ClientData "t1").liabilities =
      ((Store.find? [] "Alice").getD emptyClientRecord).liabilities ++
        (overviewLiabilityDetails c4ClientData).map normalizeLiabilityEntry ∧
    (update_client_data_from_overview
        (update_client_data_from_overview [] c4Overview "t1") c4Overview "t2").find? "Alice" =
      some (applyOverviewClient
        (applyOverviewClient ((Store.find? [] "Alice").getD emptyClientRecord)
          c4ClientData "t1") c4ClientData "t2") ∧
    (applyOverviewClient
        (applyOverviewClient ((Store.find? [] "Alice").getD emptyClientRecord)
          c4ClientData "t1") c4ClientData "t2").assets =
      ((Store.find? [] "Alice").getD emptyClientRecord).assets ++
        overviewAssetDetails c4ClientData ++ overviewAssetDetails c4ClientData ∧
    (applyOverviewClient
        (applyOverviewClient ((Store.find? [] "Alice").getD emptyClientRecord)
          c4ClientData "t1") c4ClientData "t2").liabilities =
      ((Store.find? [] "Alice").getD emptyClientRecord).liabilities ++
        (overviewLiabilityDetails c4ClientData).map normalizeLiabilityEntry ++
        (overviewLiabilityDetails c4ClientData).map normalizeLiabilityEntry ∧
    (Store.find? [] "Alice" = none →
      sumValues (applyOverviewClient
          (applyOverviewClient ((Store.find? [] "Alice").getD emptyClientRecord)
            c4ClientData "t1") c4ClientData "t2").assets =
        2 * sumValues (applyOverviewClient
          ((Store.find? [] "Alice").getD emptyClientRecord) c4ClientData "t1").assets ∧
      sumValues (applyOverviewClient
          (applyOverviewClient ((Store.find? [] "Alice").getD emptyClientRecord)
            c4ClientData "t1") c4ClientData "t2").liabilities =
        2 * sumValues (applyOverviewClient
          ((Store.find? [] "Alice").getD emptyClientRecord) c4ClientData "t1").liabilities) :=
  claim_C4_monotonic_not_idempotent [] c4Overview "t1" "t2" "Alice" c4ClientData
    (by decide) (by decide)

theorem netWorthLoop_translate_irrel (o : AgentOracle)
    (f : String → String → Except PyError String) (s : Store) (l : List String) :
    netWorthLoop { o with translate := f } s l = netWorthLoop o s l := by
  induction l with
  | nil => rfl
  | cons c t ih =>
    unfold netWorthLoop
    rw [ih]
    rfl

/-- C8: when the language-detection response is not parseable,
`detect_document_language` returns the fail-soft English default instead of
failing, and under that default `analyze_document` takes the English path:
the result does not depend on the translation agent at all, and the document
used downstream is the original text. -/
theorem claim_C8_detection_fail_soft (o : AgentOracle) (store : Store)
    (text name ts : String) (f : String → String → Except PyError String)
    (hdet : o.detectLanguage (strTake text 1000) = .ok none) :
    detect_document_language o text = .ok defaultLanguageInfo ∧
    defaultLanguageInfo = { primary_language := some "English",
                            language_code := some "en", confidence := some "low" } ∧
    documentForProcessing o text ((defaultLanguageInfo.language_code).getD "en") = .ok text ∧
    analyze_document { o with translate := f } store text name ts =
      analyze_document o store text name ts := by
  have hd : detect_document_language o text = .ok defaultLanguageInfo := by
    unfold detect_document_language
    rw [hdet]
  have hd2 : detect_document_language { o with translate := f } text = .ok defaultLanguageInfo := by
    unfold detect_document_language
    rw [show ({ o with translate := f } : AgentOracle).detectLanguage = o.detectLanguage from rfl,
      hdet]
  refine ⟨hd, rfl, rfl, ?_⟩
  unfold analyze_document
  rw [hd, hd2]
  simp only [netWorthLoop_translate_irrel]
  rfl

/-- C6: `analyze_document` always returns a result object carrying the
document name: either an exception was converted by the top-level handler
into the failed shape (status "failed", error and error type populated), or
the pipeline succeeded and the result carries the success fields with no
error and no status. -/
theorem claim_C6_top_level_never_raises (o : AgentOracle) (store : Store)
    (text name ts : String) :
    (analyze_document o store text name ts).1.document_name = name ∧
    ((∃ e : PyError,
        (analyze_document o store text name ts).1 = failedResult name e ∧
        (analyze_document o store text name ts).1.status = some "failed" ∧
        (analyze_document o store text name ts).1.error = some e.msg ∧
        (analyze_document o store text name ts).1.error_type = some e.ename) ∨
      ((analyze_document o store text name ts).1.status = none ∧
        (analyze_document o store text name ts).1.error = none ∧
        (analyze_document o store text name ts).1.error_type = none ∧
        ((analyze_document o store text name ts).1.document_type).isSome = true ∧
        ((analyze_document o store text name ts).1.language).isSome = true ∧
        ((analyze_document o store text name ts).1.client_information).isSome = true ∧
        ((analyze_document o store text name ts).1.financial_data).isSome = true ∧
        ((analyze_document o store text name ts).1.net_worth).isSome = true)) := by
  unfold analyze_document
  split
  · exact ⟨rfl, Or.inl ⟨_, rfl, rfl, rfl, rfl⟩⟩
  · split
    · exact ⟨rfl, Or.inl ⟨_, rfl, rfl, rfl, rfl⟩⟩
    · split
      · exact ⟨rfl, Or.inl ⟨_, rfl, rfl, rfl, rfl⟩⟩
      · split
        · exact ⟨rfl, Or.inl ⟨_, rfl, rfl, rfl, rfl⟩⟩
        · split
          · exact ⟨rfl, Or.inl ⟨_, rfl, rfl, rfl, rfl⟩⟩
          · split
            · exact ⟨rfl, Or.inl ⟨_, rfl, rfl, rfl, rfl⟩⟩
            · exact ⟨rfl, Or.inr ⟨rfl, rfl, rfl, rfl, rfl, rfl, rfl, rfl⟩⟩

/-- Closed instance of C8 with a detection oracle returning unparsable
output: the default is taken and the translation field is irrelevant. -/
theorem claim_C8_detection_fail_soft_witness :
    detect_document_language trivialOracle "Dokument" = .ok defaultLanguageInfo ∧
    defaultLanguageInfo = { primary_language := some "English",
                            language_code := some "en", confidence := some "low" } ∧
    documentForProcessing trivialOracle "Dokument"
        ((defaultLanguageInfo.language_code).getD "en") = .ok "Dokument" ∧
    analyze_document { trivialOracle with translate := fun _ _ => .error { msg := "boom" } }
        [] "Dokument" "doc.txt" "t" =
      analyze_document trivialOracle [] "Dokument" "doc.txt" "t" :=
  claim_C8_detection_fail_soft trivialOracle [] "Dokument" "doc.txt" "t"
    (fun _ _ => .error { msg := "boom" }) rfl

/-- The ids grouped under a given name (dict access with default `[]`). -/
def findGroup : List (String × List String) → String → List String
  | [], _ => []
  | (m, ids) :: t, n => if m = n then ids else findGroup t n

/-- All client ids appearing in some group. -/
def joinIds (gs : List (String × List String)) : List String :=
  (gs.map Prod.snd).flatten

theorem findGroup_addToGroups (gs : List (String × List String)) (n cid m : String) :
    findGroup (addToGroups gs n cid) m =
      if m = n then findGroup gs n ++ [cid] else findGroup gs m := by
  induction gs with
  | nil =>
    by_cases hm : m = n
    · simp [addToGroups, findGroup, hm]
    · simp [addToGroups, findGroup, hm, Ne.symm hm]
  | cons g t ih =>
    obtain ⟨m0, ids0⟩ := g
    by_cases h0 : m0 = n
    · subst h0
      rw [addToGroups, if_pos rfl]
      by_cases hm : m0 = m
      · subst hm
        rw [findGroup, if_pos rfl, if_pos rfl, findGroup, if_pos rfl]
      · rw [findGroup, if_neg hm, if_neg (fun h => hm h.symm), findGroup, if_neg hm]
    · rw [addToGroups, if_neg h0]
      by_cases hm : m0 = m
      · subst hm
        rw [findGroup, if_pos rfl, if_neg h0, findGroup, if_pos rfl]
      · rw [findGroup, if_neg hm, ih]
        by_cases hn : m = n
        · rw [if_pos hn, if_pos hn, findGroup, if_neg h0]
        · rw [if_neg hn, if_neg hn, findGroup, if_neg hm]

theorem joinIds_addToGroups_perm (gs : List (String × List String)) (n cid : String) :
    (joinIds (addToGroups gs n cid)).Perm (joinIds gs ++ [cid]) := by
  induction gs with
  | nil => simp [addToGroups, joinIds]
  | cons g t ih =>
    obtain ⟨m0, ids0⟩ := g
    by_cases h0 : m0 = n
    · subst h0
      simp only [addToGroups, eq_self_iff_true, if_true, joinIds, List.map_cons,
        List.flatten_cons]
      rw [List.append_assoc, List.append_assoc]
      exact List.Perm.append_left ids0 List.perm_append_comm
    · simp only [addToGroups, if_neg h0, joinIds, List.map_cons, List.flatten_cons]
      refine (List.Perm.append_left ids0 ih).trans ?_
      rw [← List.append_assoc]
      exact List.Perm.refl _

theorem names_addToGroups (gs : List (String × List String)) (n cid : String) :
    (addToGroups gs n cid).map Prod.fst =
      if n ∈ gs.map Prod.fst then gs.map Prod.fst else gs.map Prod.fst ++ [n] := by
  induction gs with
  | nil => simp [addToGroups]
  | cons g t ih =>
    obtain ⟨m0, ids0⟩ := g
    by_cases h0 : m0 = n
    · subst h0
      simp [addToGroups]
    · simp only [addToGroups, if_neg h0, List.map_cons]
      by_cases hn : n ∈ t.map Prod.fst
      · simp [hn, ih, Ne.symm h0]
      · simp [hn, ih, Ne.symm h0]

theorem nonempty_addToGroups (gs : List (String × List String)) (n cid : String)
    (h : ∀ g ∈ gs, g.2 ≠ []) : ∀ g ∈ addToGroups gs n cid, g.2 ≠ [] := by
  induction gs with
  | nil =>
    intro g hg
    simp only [addToGroups, List.mem_singleton] at hg
    subst hg
    simp
  | cons g0 t ih =>
    obtain ⟨m0, ids0⟩ := g0
    intro g hg
    by_cases h0 : m0 = n
    · subst h0
      simp only [addToGroups, eq_self_iff_true, if_true, List.mem_cons] at hg
      rcases hg with hg1 | hg1
      · subst hg1
        simp
      · exact h g (List.mem_cons_of_mem _ hg1)
    · simp only [addToGroups, if_neg h0, List.mem_cons] at hg
      rcases hg with hg1 | hg1
      · subst hg1
        exact h (m0, ids0) (List.mem_cons_self _ _)
      · exact ih (fun g' hg' => h g' (List.mem_cons_of_mem _ hg')) g hg1

theorem findGroup_groupFold (store : Store) (gs0 : List (String × List String))
    (n : String) (hvalid : validGroupName n = true) :
    findGroup (store.foldl groupStepFn gs0) n =
      findGroup gs0 n ++
        (store.filter (fun p => reconcileGroupName p.2 == n)).map Prod.fst := by
  induction store generalizing gs0 with
  | nil => simp
  | cons p t ih =>
    rw [List.foldl_cons, ih]
    unfold groupStepFn
    by_cases hv : validGroupName (reconcileGroupName p.2) = true
    · rw [if_pos hv, findGroup_addToGroups]
      by_cases hn : reconcileGroupName p.2 = n
      · rw [if_pos hn.symm, List.filter_cons_of_pos (by simp [hn]), List.map_cons,
          List.append_assoc, hn]
        rfl
      · rw [if_neg (fun h => hn h.symm), List.filter_cons_of_neg (by simp [hn])]
    · rw [if_neg hv, List.filter_cons_of_neg ?_]
      simp only [beq_iff_eq]
      intro hn
      exact hv (hn ▸ hvalid)

theorem joinIds_groupFold_perm (store : Store) (gs0 : List (String × List String)) :
    (joinIds (store.foldl groupStepFn gs0)).Perm
      (joinIds gs0 ++
        (store.filter (fun p => validGroupName (reconcileGroupName p.2))).map Prod.fst) := by
  induction store generalizing gs0 with
  | nil => simp
  | cons p t ih =>
    rw [List.foldl_cons]
    unfold groupStepFn
    by_cases hv : validGroupName (reconcileGroupName p.2) = true
    · rw [if_pos hv, List.filter_cons_of_pos (by simp [hv]), List.map_cons]
      refine (ih (addToGroups gs0 (reconcileGroupName p.2) p.1)).trans ?_
      refine List.Perm.append_right _ (joinIds_addToGroups_perm gs0 _ p.1) |>.trans ?_
      rw [List.append_assoc]
      exact List.Perm.refl _
    · rw [if_neg hv, List.filter_cons_of_neg (by simp [hv])]
      exact ih gs0

theorem nonempty_groupFold (store : Store) (gs0 : List (String × List String))
    (h0 : ∀ g ∈ gs0, g.2 ≠ []) : ∀ g ∈ store.foldl groupStepFn gs0, g.2 ≠ [] := by
  induction store generalizing gs0 with
  | nil => exact h0
  | cons p t ih =>
    rw [List.foldl_cons]
    refine ih _ ?_
    unfold groupStepFn
    by_cases hv : validGroupName (reconcileGroupName p.2) = true
    · rw [if_pos hv]
      exact nonempty_addToGroups gs0 _ p.1 h0
    · rw [if_neg hv]
      exact h0

theorem names_valid_groupFold (store : Store) (gs0 : List (String × List String))
    (m : String) (hm : m ∈ (store.foldl groupStepFn gs0).map Prod.fst) :
    m ∈ gs0.map Prod.fst ∨ validGroupName m = true := by
  induction store generalizing gs0 with
  | nil => exact Or.inl hm
  | cons p t ih =>
    rw [List.foldl_cons] at hm
    rcases ih _ hm with hstep | hvm
    · unfold groupStepFn at hstep
      by_cases hv : validGroupName (reconcileGroupName p.2) = true
      · rw [if_pos hv, names_addToGroups] at hstep
        by_cases hmem : reconcileGroupName p.2 ∈ gs0.map Prod.fst
        · rw [if_pos hmem] at hstep
          exact Or.inl hstep
        · rw [if_neg hmem, List.mem_append, List.mem_singleton] at hstep
          rcases hstep with hstep | hstep
          · exact Or.inl hstep
          · exact Or.inr (hstep ▸ hv)
      · rw [if_neg hv] at hstep
        exact Or.inl hstep
    · exact Or.inr hvm

theorem names_nodup_groupFold (store : Store) (gs0 : List (String × List String))
    (hnd : (gs0.map Prod.fst).Nodup) :
    ((store.foldl groupStepFn gs0).map Prod.fst).Nodup := by
  induction store generalizing gs0 with
  | nil => exact hnd
  | cons p t ih =>
    rw [List.foldl_cons]
    refine ih _ ?_
    unfold groupStepFn
    by_cases hv : validGroupName (reconcileGroupName p.2) = true
    · rw [if_pos hv, names_addToGroups]
      by_cases hmem : reconcileGroupName p.2 ∈ gs0.map Prod.fst
      · rwa [if_pos hmem]
      · rw [if_neg hmem]
        simp [List.nodup_append, hnd, hmem]
    · rwa [if_neg hv]

theorem findGroup_of_mem (gs : List (String × List String)) (n : String)
    (ids : List String) (hnd : (gs.map Prod.fst).Nodup) (hmem : (n, ids) ∈ gs) :
    findGroup gs n = ids := by
  induction gs with
  | nil => simp at hmem
  | cons g t ih =>
    obtain ⟨m0, ids0⟩ := g
    simp only [List.map_cons, List.nodup_cons] at hnd
    rcases List.mem_cons.mp hmem with hg | hg
    · injection hg with h1 h2
      rw [findGroup, if_pos h1.symm, h2]
    · have hne : m0 ≠ n := by
        intro hcontra
        exact hnd.1 (hcontra ▸ List.mem_map.mpr ⟨(n, ids), hg, rfl⟩)
      rw [findGroup, if_neg hne]
      exact ih hnd.2 hg

theorem mem_of_findGroup_ne_nil (gs : List (String × List String)) (n : String)
    (h : findGroup gs n ≠ []) : (n, findGroup gs n) ∈ gs := by
  induction gs with
  | nil => simp [findGroup] at h
  | cons g t ih =>
    obtain ⟨m0, ids0⟩ := g
    by_cases h0 : m0 = n
    · subst h0
      rw [findGroup, if_pos rfl] at h ⊢
      exact List.mem_cons_self _ _
    · rw [findGroup, if_neg h0] at h ⊢
      exact List.mem_cons_of_mem _ (ih h)

theorem Store.isSome_find?_of_mem_keys (s : Store) (k : String) (h : k ∈ s.keys) :
    (s.find? k).isSome = true := by
  induction s with
  | nil => simp [Store.keys] at h
  | cons p t ih =>
    obtain ⟨k0, r0⟩ := p
    by_cases h0 : k0 = k
    · rw [Store.find?_cons, if_pos h0]
      rfl
    · rw [Store.find?_cons, if_neg h0]
      refine ih ?_
      simp only [Store.keys, List.map_cons, List.mem_cons] at h
      rcases h with h | h
      · exact absurd h.symm h0
      · exact h

theorem Store.snd_eq_of_mem_of_nodup (s : Store) (k : String) (r r' : ClientRecord)
    (hnd : s.keys.Nodup) (hfind : s.find? k = some r) (hmem : (k, r') ∈ s) : r' = r := by
  induction s with
  | nil => simp at hmem
  | cons p t ih =>
    obtain ⟨k0, r0⟩ := p
    simp only [Store.keys, List.map_cons, List.nodup_cons] at hnd
    rcases List.mem_cons.mp hmem with hg | hg
    · injection hg with h1 h2
      rw [Store.find?_cons, if_pos h1.symm] at hfind
      injection hfind with hfind
      rw [h2, hfind]
    · have hne : k0 ≠ k := by
        intro hcontra
        exact hnd.1 (hcontra ▸ List.mem_map.mpr ⟨(k, r'), hg, rfl⟩)
      rw [Store.find?_cons, if_neg hne] at hfind
      exact ih hnd.2 hfind hg

/-- The effect of one `_merge_client_records` call on the primary record:
concatenate the absorbed record's lists and append a merge-history event. -/
def absorbRecord (ts : String) (p : ClientRecord) (q : String × ClientRecord) :
    ClientRecord :=
  { p with
    assets := p.assets ++ q.2.assets,
    liabilities := p.liabilities ++ q.2.liabilities,
    documents_processed := p.documents_processed ++ q.2.documents_processed,
    merge_history := p.merge_history ++
      [{ merged_from_id := q.1, timestamp := ts,
         assets_count := q.2.assets.length,
         liabilities_count := q.2.liabilities.length }] }

/-- The primary record after absorbing a list of keyed records in order. -/
def absorbAll (ts : String) (p : ClientRecord) (qs : List (String × ClientRecord)) :
    ClientRecord :=
  qs.foldl (absorbRecord ts) p

theorem absorbAll_spec (ts : String) (qs : List (String × ClientRecord)) :
    ∀ p : ClientRecord, absorbAll ts p qs =
      { assets := p.assets ++ (qs.map (fun q => q.2.assets)).flatten,
        liabilities := p.liabilities ++ (qs.map (fun q => q.2.liabilities)).flatten,
        documents_processed :=
          p.documents_processed ++ (qs.map (fun q => q.2.documents_processed)).flatten,
        client_info := p.client_info,
        merge_history := p.merge_history ++ qs.map (fun q =>
          { merged_from_id := q.1, timestamp := ts,
            assets_count := q.2.assets.length,
            liabilities_count := q.2.liabilities.length }) } := by
  induction qs with
  | nil => intro p; simp [absorbAll]
  | cons q t ih =>
    intro p
    show absorbAll ts (absorbRecord ts p q) t = _
    rw [ih]
    simp [absorbRecord, List.append_assoc]

theorem mergeClientRecords_eq (st : Store) (pid sid ts : String)
    (p s2 : ClientRecord) (hp : st.find? pid = some p) (hs : st.find? sid = some s2) :
    mergeClientRecords st pid sid ts =
      (st.set pid (absorbRecord ts p (sid, s2))).erase sid := by
  unfold mergeClientRecords
  rw [hp, hs]
  rfl

theorem mergeGroup_spec (ts : String) (qs : List (String × ClientRecord)) :
    ∀ (st : Store) (p : String) (rp : ClientRecord),
    st.keys.Nodup →
    st.find? p = some rp →
    (∀ q ∈ qs, st.find? q.1 = some q.2) →
    p ∉ qs.map Prod.fst →
    (qs.map Prod.fst).Nodup →
    (mergeGroup ts st p (qs.map Prod.fst)).find? p = some (absorbAll ts rp qs) ∧
    (∀ q ∈ qs, (mergeGroup ts st p (qs.map Prod.fst)).find? q.1 = none) ∧
    (∀ k, k ≠ p → k ∉ qs.map Prod.fst →
      (mergeGroup ts st p (qs.map Prod.fst)).find? k = st.find? k) ∧
    (mergeGroup ts st p (qs.map Prod.fst)).keys.Nodup := by
  induction qs with
  | nil =>
    intro st p rp hnd hp _ _ _
    exact ⟨hp, by simp, fun k _ _ => rfl, hnd⟩
  | cons q t ih =>
    intro st p rp hnd hp hqs hpni hqnd
    simp only [List.map_cons, List.mem_cons, List.nodup_cons] at hpni hqnd
    push_neg at hpni
    have hq1 : st.find? q.1 = some q.2 := hqs q (List.mem_cons_self _ _)
    have hstep : mergeClientRecords st p q.1 ts =
        (st.set p (absorbRecord ts rp (q.1, q.2))).erase q.1 :=
      mergeClientRecords_eq st p q.1 ts rp q.2 hp hq1
    set st1 := (st.set p (absorbRecord ts rp (q.1, q.2))).erase q.1 with hst1
    have hnd1 : st1.keys.Nodup :=
      Store.nodup_keys_erase _ q.1 (Store.nodup_keys_set st p _ hnd)
    have hfind1p : st1.find? p = some (absorbRecord ts rp q) := by
      rw [hst1, Store.find?_erase_ne _ q.1 p hpni.1, Store.find?_set_self]
    have hfind1q : st1.find? q.1 = none := by
      rw [hst1]
      exact Store.find?_erase_self _ q.1 (Store.nodup_keys_set st p _ hnd)
    have hfind1t : ∀ q' ∈ t, st1.find? q'.1 = some q'.2 := by
      intro q' hq'
      have hne1 : q'.1 ≠ q.1 := by
        intro hcontra
        exact hqnd.1 (hcontra ▸ List.mem_map.mpr ⟨q', hq', rfl⟩)
      have hnep : q'.1 ≠ p := by
        intro hcontra
        exact hpni.2 (hcontra ▸ List.mem_map.mpr ⟨q', hq', rfl⟩)
      rw [hst1, Store.find?_erase_ne _ q.1 q'.1 hne1, Store.find?_set_ne st p q'.1 _ hnep]
      exact hqs q' (List.mem_cons_of_mem _ hq')
    have hmg : mergeGroup ts st p ((q :: t).map Prod.fst) =
        mergeGroup ts st1 p (t.map Prod.fst) := by
      rw [List.map_cons]
      unfold mergeGroup
      rw [List.foldl_cons, hstep]
    have hihres := ih st1 p (absorbRecord ts rp q) hnd1 hfind1p hfind1t hpni.2 hqnd.2
    refine ⟨?_, ?_, ?_, ?_⟩
    · rw [hmg]
      exact hihres.1
    · intro q' hq'
      rcases List.mem_cons.mp hq' with hq'h | hq't
      · subst hq'h
        rw [hmg]
        have hq1nep : q'.1 ≠ p := fun hcontra => hpni.1 hcontra.symm
        rw [hihres.2.2.1 q'.1 hq1nep hqnd.1]
        exact hfind1q
      · rw [hmg]
        exact hihres.2.1 q' hq't
    · intro k hkp hkmem
      simp only [List.map_cons, List.mem_cons] at hkmem
      push_neg at hkmem
      rw [hmg, hihres.2.2.1 k hkp hkmem.2, hst1,
        Store.find?_erase_ne _ q.1 k hkmem.1, Store.find?_set_ne st p k _ hkp]
    · rw [hmg]
      exact hihres.2.2.2

theorem joinIds_cons (g : String × List String) (t : List (String × List String)) :
    joinIds (g :: t) = g.2 ++ joinIds t := by
  simp [joinIds]

theorem mem_joinIds_of_mem (gs : List (String × List String))
    (g : String × List String) (k : String) (hg : g ∈ gs) (hk : k ∈ g.2) :
    k ∈ joinIds gs :=
  List.mem_flatten.mpr ⟨g.2, List.mem_map.mpr ⟨g, hg, rfl⟩, hk⟩

theorem reconcileFold_spec (ts : String) (R : String → ClientRecord)
    (gs : List (String × List String)) :
    ∀ (st0 : Store) (c0 : Nat),
    st0.keys.Nodup →
    (joinIds gs).Nodup →
    (∀ g ∈ gs, ∀ k ∈ g.2, st0.find? k = some (R k)) →
    (gs.foldl (reconcileStep ts) (st0, c0)).2 =
        c0 + (gs.map (fun g => g.2.length - 1)).sum ∧
    (∀ g ∈ gs, ∀ p o rest, g.2 = p :: o :: rest →
      (gs.foldl (reconcileStep ts) (st0, c0)).1.find? p =
        some (absorbAll ts (R p) ((o :: rest).map (fun k => (k, R k)))) ∧
      ∀ k ∈ o :: rest, (gs.foldl (reconcileStep ts) (st0, c0)).1.find? k = none) ∧
    (∀ k, k ∉ joinIds gs →
      (gs.foldl (reconcileStep ts) (st0, c0)).1.find? k = st0.find? k) ∧
    (gs.foldl (reconcileStep ts) (st0, c0)).1.keys.Nodup := by
  induction gs with
  | nil =>
    intro st0 c0 hnd _ _
    exact ⟨by simp, by simp, fun k _ => rfl, hnd⟩
  | cons g gs' ih =>
    intro st0 c0 hnd hjnd hR
    obtain ⟨gname, gids⟩ := g
    rw [joinIds_cons] at hjnd
    simp only [List.nodup_append] at hjnd
    obtain ⟨hgnd, hjnd', hdisj⟩ := hjnd
    cases gids with
    | nil =>
      have hfold : ((gname, ([] : List String)) :: gs').foldl (reconcileStep ts) (st0, c0) =
          gs'.foldl (reconcileStep ts) (st0, c0) := rfl
      have hres := ih st0 c0 hnd hjnd'
        (fun g' hg' k hk => hR g' (List.mem_cons_of_mem _ hg') k hk)
      refine ⟨?_, ?_, ?_, ?_⟩
      · rw [hfold, hres.1]
        simp
      · intro g'' hg'' p' o' rest' heq
        rcases List.mem_cons.mp hg'' with hg''h | hg''t
        · rw [hg''h] at heq
          simp at heq
        · rw [hfold]
          exact hres.2.1 g'' hg''t p' o' rest' heq
      · intro k hk
        rw [joinIds_cons, List.mem_append] at hk
        push_neg at hk
        rw [hfold]
        exact hres.2.2.1 k hk.2
      · rw [hfold]
        exact hres.2.2.2
    | cons p gtail =>
      cases gtail with
      | nil =>
        have hfold : ((gname, [p]) :: gs').foldl (reconcileStep ts) (st0, c0) =
            gs'.foldl (reconcileStep ts) (st0, c0) := rfl
        have hres := ih st0 c0 hnd hjnd'
          (fun g' hg' k hk => hR g' (List.mem_cons_of_mem _ hg') k hk)
        refine ⟨?_, ?_, ?_, ?_⟩
        · rw [hfold, hres.1]
          simp
        · intro g'' hg'' p' o' rest' heq
          rcases List.mem_cons.mp hg'' with hg''h | hg''t
          · rw [hg''h] at heq
            simp at heq
          · rw [hfold]
            exact hres.2.1 g'' hg''t p' o' rest' heq
        · intro k hk
          rw [joinIds_cons, List.mem_append] at hk
          push_neg at hk
          rw [hfold]
          exact hres.2.2.1 k hk.2
        · rw [hfold]
          exact hres.2.2.2
      | cons o rest =>
        have hqsfst : ((o :: rest).map (fun k => (k, R k))).map Prod.fst = o :: rest := by
          simp [Function.comp_def]
        have hgmem : (gname, p :: o :: rest) ∈ (gname, p :: o :: rest) :: gs' :=
          List.mem_cons_self _ _
        have hpmem : p ∈ p :: o :: rest := List.mem_cons_self _ _
        have hpnotin : p ∉ o :: rest := (List.nodup_cons.mp hgnd).1
        have hornd : (o :: rest).Nodup := (List.nodup_cons.mp hgnd).2
        have hM := mergeGroup_spec ts ((o :: rest).map (fun k => (k, R k))) st0 p (R p)
          hnd (hR _ hgmem p hpmem)
          (by
            intro q hq
            rcases List.mem_map.mp hq with ⟨k, hk, hkeq⟩
            rw [← hkeq]
            exact hR _ hgmem k (List.mem_cons_of_mem _ hk))
          (by rw [hqsfst]; exact hpnotin)
          (by rw [hqsfst]; exact hornd)
        rw [hqsfst] at hM
        have hfold : ((gname, p :: o :: rest) :: gs').foldl (reconcileStep ts) (st0, c0) =
            gs'.foldl (reconcileStep ts)
              (mergeGroup ts st0 p (o :: rest), c0 + (o :: rest).length) := rfl
        have hR' : ∀ g' ∈ gs', ∀ k ∈ g'.2,
            (mergeGroup ts st0 p (o :: rest)).find? k = some (R k) := by
          intro g' hg' k hk
          have hkj : k ∈ joinIds gs' := mem_joinIds_of_mem gs' g' k hg' hk
          have hknotin : k ∉ p :: o :: rest := by
            intro hcontra
            exact hdisj hcontra hkj
          rw [List.mem_cons] at hknotin
          push_neg at hknotin
          rw [hM.2.2.1 k hknotin.1 hknotin.2]
          exact hR g' (List.mem_cons_of_mem _ hg') k hk
        have hres := ih (mergeGroup ts st0 p (o :: rest)) (c0 + (o :: rest).length)
          hM.2.2.2 hjnd' hR'
        refine ⟨?_, ?_, ?_, ?_⟩
        · rw [hfold, hres.1]
          simp only [List.map_cons, List.sum_cons, List.length_cons]
          omega
        · intro g'' hg'' p' o' rest' heq
          rcases List.mem_cons.mp hg'' with hg''h | hg''t
          · rw [hg''h] at heq
            simp only at heq
            injection heq with heq1 heq2
            injection heq2 with heq2 heq3
            subst heq1
            subst heq2
            subst heq3
            constructor
            · have hpj : p ∉ joinIds gs' := by
                intro hcontra
                exact hdisj hpmem hcontra
              rw [hfold, hres.2.2.1 p hpj, hM.1]
            · intro k hk
              have hkj : k ∉ joinIds gs' := by
                intro hcontra
                exact hdisj (List.mem_cons_of_mem _ hk) hcontra
              rw [hfold, hres.2.2.1 k hkj]
              have := hM.2.1 (k, R k) (List.mem_map.mpr ⟨k, hk, rfl⟩)
              exact this
          · rw [hfold]
            exact hres.2.1 g'' hg''t p' o' rest' heq
        · intro k hk
          rw [joinIds_cons, List.mem_append] at hk
          push_neg at hk
          have hknotin := hk.1
          rw [List.mem_cons] at hknotin
          push_neg at hknotin
          rw [hfold, hres.2.2.1 k hk.2, hM.2.2.1 k hknotin.1 hknotin.2]
        · rw [hfold]
          exact hres.2.2.2

/-- The record stored under a key (empty default for absent keys). -/
def storedRecord (store : Store) (k : String) : ClientRecord :=
  (store.find? k).getD emptyClientRecord

theorem buildClientGroups_findGroup (store : Store) (n : String)
    (hvalid : validGroupName n = true) :
    findGroup (buildClientGroups store) n =
      (store.filter (fun p => reconcileGroupName p.2 == n)).map Prod.fst := by
  unfold buildClientGroups
  rw [findGroup_groupFold store [] n hvalid]
  rfl

theorem buildClientGroups_joinIds_perm (store : Store) :
    (joinIds (buildClientGroups store)).Perm
      ((store.filter (fun p => validGroupName (reconcileGroupName p.2))).map Prod.fst) := by
  unfold buildClientGroups
  simpa using joinIds_groupFold_perm store []

theorem buildClientGroups_joinIds_nodup (store : Store) (hnd : store.keys.Nodup) :
    (joinIds (buildClientGroups store)).Nodup := by
  refine (buildClientGroups_joinIds_perm store).symm.nodup ?_
  exact ((List.filter_sublist store).map Prod.fst).nodup hnd

theorem buildClientGroups_records (store : Store) :
    ∀ g ∈ buildClientGroups store, ∀ k ∈ g.2,
      store.find? k = some (storedRecord store k) := by
  intro g hg k hk
  have hkj : k ∈ joinIds (buildClientGroups store) :=
    mem_joinIds_of_mem _ g k hg hk
  have hkf := (buildClientGroups_joinIds_perm store).mem_iff.mp hkj
  have hkkeys : k ∈ store.keys := by
    rcases List.mem_map.mp hkf with ⟨p, hp, hpeq⟩
    exact hpeq ▸ List.mem_map.mpr ⟨p, List.mem_of_mem_filter hp, rfl⟩
  have hsome := Store.isSome_find?_of_mem_keys store k hkkeys
  unfold storedRecord
  cases hfind : store.find? k with
  | none => rw [hfind] at hsome; simp at hsome
  | some r => rfl

/-- C3: reconciliation groups the store's keys by the case- and
surrounding-whitespace-insensitive normalization of their records'
client names; for a group of more than one identically-normalizing record,
after the call the first record in insertion order remains, holding the
concatenation of all the group's asset lists, liability lists and processing
histories, plus one merge-history entry per absorbed record recording the
absorbed key, the timestamp and the absorbed asset/liability counts; every
absorbed record is deleted; and the returned count, which totals
group size − 1 over all groups, includes N − 1 merges for this group. -/
theorem claim_C3_reconcile_merges_same_name (store : Store) (ts n k1 : String)
    (ks : List String)
    (hnd : store.keys.Nodup)
    (hvalid : validGroupName n = true)
    (hgroup : (store.filter (fun p => reconcileGroupName p.2 == n)).map Prod.fst = k1 :: ks)
    (hks : ks ≠ []) :
    (reconcile_client_records store ts).1.find? k1 = some
      { assets := (storedRecord store k1).assets ++
          (ks.map (fun k => (storedRecord store k).assets)).flatten,
        liabilities := (storedRecord store k1).liabilities ++
          (ks.map (fun k => (storedRecord store k).liabilities)).flatten,
        documents_processed := (storedRecord store k1).documents_processed ++
          (ks.map (fun k => (storedRecord store k).documents_processed)).flatten,
        client_info := (storedRecord store k1).client_info,
        merge_history := (storedRecord store k1).merge_history ++ ks.map (fun k =>
          { merged_from_id := k, timestamp := ts,
            assets_count := (storedRecord store k).assets.length,
            liabilities_count := (storedRecord store k).liabilities.length }) } ∧
    (∀ k ∈ ks, (reconcile_client_records store ts).1.find? k = none) ∧
    (n, k1 :: ks) ∈ buildClientGroups store ∧
    (reconcile_client_records store ts).2 =
      ((buildClientGroups store).map (fun g => g.2.length - 1)).sum ∧
    ks.length ≤ (reconcile_client_records store ts).2 := by
  have hfg : findGroup (buildClientGroups store) n = k1 :: ks := by
    rw [buildClientGroups_findGroup store n hvalid, hgroup]
  have hmem : (n, k1 :: ks) ∈ buildClientGroups store := by
    have hne : findGroup (buildClientGroups store) n ≠ [] := by
      rw [hfg]
      simp
    have := mem_of_findGroup_ne_nil (buildClientGroups store) n hne
    rwa [hfg] at this
  have hjnd := buildClientGroups_joinIds_nodup store hnd
  have hR := buildClientGroups_records store
  have hspec := reconcileFold_spec ts (storedRecord store) (buildClientGroups store)
    store 0 hnd hjnd hR
  have hcount : (reconcile_client_records store ts).2 =
      ((buildClientGroups store).map (fun g => g.2.length - 1)).sum := by
    show ((buildClientGroups store).foldl (reconcileStep ts) (store, 0)).2 = _
    rw [hspec.1]
    omega
  cases ks with
  | nil => exact absurd rfl hks
  | cons o rest =>
    obtain ⟨hmain, hnone⟩ := hspec.2.1 (n, k1 :: o :: rest) hmem k1 o rest rfl
    refine ⟨?_, ?_, hmem, hcount, ?_⟩
    · show ((buildClientGroups store).foldl (reconcileStep ts) (store, 0)).1.find? k1 = _
      rw [hmain, absorbAll_spec]
      simp [Function.comp_def]
    · intro k hk
      show ((buildClientGroups store).foldl (reconcileStep ts) (store, 0)).1.find? k = none
      exact hnone k hk
    · rw [hcount]
      have helem : (o :: rest).length ∈
          (buildClientGroups store).map (fun g => g.2.length - 1) :=
        List.mem_map.mpr ⟨(n, k1 :: o :: rest), hmem, by simp⟩
      exact List.single_le_sum (fun x _ => Nat.zero_le x) _ helem

/-- C9: a record whose client info is absent, whose client name is missing or
empty (after stripping), or whose lowercased and stripped client name is
"unknown", is left untouched by reconciliation: it is still stored unchanged,
it belongs to no merge group (so it is never a primary, never absorbed, never
deleted), and the returned merge count is determined entirely by the groups,
to which it does not contribute. -/
theorem claim_C9_unnamed_records_untouched (store : Store) (ts k : String)
    (r : ClientRecord)
    (hnd : store.keys.Nodup)
    (hfind : store.find? k = some r)
    (hinvalid : validGroupName (reconcileGroupName r) = false) :
    (reconcile_client_records store ts).1.find? k = some r ∧
    (∀ g ∈ buildClientGroups store, k ∉ g.2) ∧
    (reconcile_client_records store ts).2 =
      ((buildClientGroups store).map (fun g => g.2.length - 1)).sum := by
  have hknotin : k ∉ joinIds (buildClientGroups store) := by
    intro hcontra
    have hkf := (buildClientGroups_joinIds_perm store).mem_iff.mp hcontra
    rcases List.mem_map.mp hkf with ⟨p, hp, hpeq⟩
    have hpmem := List.mem_of_mem_filter hp
    have hpvalid := List.of_mem_filter hp
    have hpr : p.2 = r := by
      refine Store.snd_eq_of_mem_of_nodup store k r p.2 hnd hfind ?_
      have : p = (k, p.2) := by
        rw [← hpeq]
      rwa [this] at hpmem
    rw [hpr] at hpvalid
    rw [hpvalid] at hinvalid
    exact Bool.true_eq_false.mp hinvalid
  have hjnd := buildClientGroups_joinIds_nodup store hnd
  have hR := buildClientGroups_records store
  have hspec := reconcileFold_spec ts (storedRecord store) (buildClientGroups store)
    store 0 hnd hjnd hR
  refine ⟨?_, ?_, ?_⟩
  · show ((buildClientGroups store).foldl (reconcileStep ts) (store, 0)).1.find? k = some r
    rw [hspec.2.2.1 k hknotin, hfind]
  · intro g hg hk
    exact hknotin (mem_joinIds_of_mem _ g k hg hk)
  · show ((buildClientGroups store).foldl (reconcileStep ts) (store, 0)).2 = _
    rw [hspec.1]
    omega

/-- A concrete record whose client name normalizes to "john smith". -/
def c3RecA : ClientRecord :=
  { assets := [{ description := "house", value := some 100 }],
    liabilities := [{ description := "loan", value := some 40 }],
    client_info := some { client_name := some "John Smith" } }

/-- A same-person record under a differently-cased name. -/
def c3RecB : ClientRecord :=
  { assets := [{ description := "car", value := some 20 }],
    client_info := some { client_name := some "JOHN SMITH " } }

/-- A same-person record with surrounding whitespace in the name. -/
def c3RecC : ClientRecord :=
  { liabilities := [{ description := "card", value := some 5 }],
    client_info := some { client_name := some " john smith" } }

/-- A three-client store in which all three clients normalize identically. -/
def c3Store : Store := [("A", c3RecA), ("B", c3RecB), ("C", c3RecC)]

/-- Closed instance of C3: three same-named clients leave one merged record
and report 2 merges. -/
theorem claim_C3_reconcile_merges_same_name_witness :
    (reconcile_client_records c3Store "T").1.find? "A" = some
      { assets := (storedRecord c3Store "A").assets ++
          ((["B", "C"] : List String).map (fun k => (storedRecord c3Store k).assets)).flatten,
        liabilities := (storedRecord c3Store "A").liabilities ++
          ((["B", "C"] : List String).map
            (fun k => (storedRecord c3Store k).liabilities)).flatten,
        documents_processed := (storedRecord c3Store "A").documents_processed ++
          ((["B", "C"] : List String).map
            (fun k => (storedRecord c3Store k).documents_processed)).flatten,
        client_info := (storedRecord c3Store "A").client_info,
        merge_history := (storedRecord c3Store "A").merge_history ++
          (["B", "C"] : List String).map (fun k =>
            { merged_from_id := k, timestamp := "T",
              assets_count := (storedRecord c3Store k).assets.length,
              liabilities_count := (storedRecord c3Store k).liabilities.length }) } ∧
    (∀ k ∈ (["B", "C"] : List String),
      (reconcile_client_records c3Store "T").1.find? k = none) ∧
    ("john smith", "A" :: ["B", "C"]) ∈ buildClientGroups c3Store ∧
    (reconcile_client_records c3Store "T").2 =
      ((buildClientGroups c3Store).map (fun g => g.2.length - 1)).sum ∧
    (["B", "C"] : List String).length ≤ (reconcile_client_records c3Store "T").2 :=
  claim_C3_reconcile_merges_same_name c3Store "T" "john smith" "A" ["B", "C"]
    (by decide) (by decide) (by decide) (by decide)

/-- A record with no client info at all. -/
def c9Rec : ClientRecord := { assets := [{ description := "cash", value := some 7 }] }

/-- A store mixing an unnamed record with two mergeable named records. -/
def c9Store : Store := [("X", c9Rec), ("A", c3RecA), ("B", c3RecB)]

/-- Closed instance of C9: the unnamed record is untouched while the named
pair merges. -/
theorem claim_C9_unnamed_records_untouched_witness :
    (reconcile_client_records c9Store "T").1.find? "X" = some c9Rec ∧
    (∀ g ∈ buildClientGroups c9Store, "X" ∉ g.2) ∧
    (reconcile_client_records c9Store "T").2 =
      ((buildClientGroups c9Store).map (fun g => g.2.length - 1)).sum :=
  claim_C9_unnamed_records_untouched c9Store "T" "X" c9Rec
    (by decide) (by decide) (by decide)
